import Mathlib

/-!
Verification of the Sol-Engine Vulkan renderer against its specification.

Shallow Lean embedding of the relevant parts of the C++ sources:
  * `src/SolEngine/Core/ISystem.h` — swapchain helper functions
    (`chooseSwapSurfaceFormat`, `chooseSwapPresentMode`, `chooseSwapExtent`),
    the swapchain image-count computation in `RenderSystem::createSwapChain`,
    the per-frame loop body `RenderSystem::update`, queue-family discovery
    (`RenderSystem::findQueueFamilies`), device-extension checking
    (`RenderSystem::checkDeviceExtensionSupport`), device suitability
    (`RenderSystem::isDeviceSuitable`) and selection
    (`RenderSystem::pickPhysicalDevice`);
  * `src/SolEngine/Graphics/Mesh.cpp` — OBJ loading with vertex
    deduplication (`Mesh::loadModel`), together with
    `src/SolEngine/Graphics/Vertex.h` (`Vertex::operator==`).

Machine integers are modelled as `Nat` with explicit `% 2 ^ 32` where the
C++ narrows to `uint32_t`.  The calls into the Vulkan driver are modelled as
data supplied in the input structures (driver result codes, surface
capabilities, queue-family properties); `std::abort` reached through
`LOG_CRITICAL` or directly is modelled as an explicit event / `Option.none`.
-/

namespace SolEngine

/-! ### Vulkan data model -/

/-- Result codes returned by the Vulkan calls appearing in the frame loop.
`errorCode` collects every result other than the three the code tests for. -/
inductive VkResult where
  | success
  | suboptimalKHR
  | errorOutOfDateKHR
  | errorCode (code : Int)
deriving DecidableEq

/-- `VkExtent2D`, both fields `uint32_t` in the source. -/
structure VkExtent2D where
  width : Nat
  height : Nat
deriving DecidableEq

/-- The fields of `VkSurfaceCapabilitiesKHR` the engine reads. -/
structure VkSurfaceCapabilitiesKHR where
  minImageCount : Nat
  maxImageCount : Nat
  currentExtent : VkExtent2D
  minImageExtent : VkExtent2D
  maxImageExtent : VkExtent2D
deriving DecidableEq

/-- Surface formats: the code only distinguishes `VK_FORMAT_UNDEFINED`,
`VK_FORMAT_B8G8R8A8_UNORM` and everything else. -/
inductive VkFormat where
  | undefined
  | b8g8r8a8Unorm
  | otherFormat (code : Nat)
deriving DecidableEq

/-- Color spaces: the code only distinguishes
`VK_COLOR_SPACE_SRGB_NONLINEAR_KHR` from everything else. -/
inductive VkColorSpaceKHR where
  | srgbNonlinearKHR
  | otherColorSpace (code : Nat)
deriving DecidableEq

/-- `VkSurfaceFormatKHR`. -/
structure VkSurfaceFormatKHR where
  format : VkFormat
  colorSpace : VkColorSpaceKHR
deriving DecidableEq

/-- Present modes: the code only distinguishes mailbox, immediate and FIFO. -/
inductive VkPresentModeKHR where
  | immediateKHR
  | mailboxKHR
  | fifoKHR
  | otherMode (code : Nat)
deriving DecidableEq

/-- The preferred pair `{ VK_FORMAT_B8G8R8A8_UNORM, VK_COLOR_SPACE_SRGB_NONLINEAR_KHR }`
returned by `chooseSwapSurfaceFormat` (ISystem.h line 76). -/
def preferredSurfaceFormat : VkSurfaceFormatKHR :=
  { format := VkFormat.b8g8r8a8Unorm, colorSpace := VkColorSpaceKHR.srgbNonlinearKHR }

/-! ### Swapchain helper functions (ISystem.h lines 74-115) -/

/-- `chooseSwapSurfaceFormat` (ISystem.h lines 74-86).  The C++ function
indexes `availableFormats[0]`, which is undefined behaviour on an empty
vector; the model returns `Option`, with `none` for that case. -/
def chooseSwapSurfaceFormat (availableFormats : List VkSurfaceFormatKHR) :
    Option VkSurfaceFormatKHR :=
  if availableFormats.length = 1 ∧
      availableFormats.head?.map VkSurfaceFormatKHR.format = some VkFormat.undefined then
    some preferredSurfaceFormat
  else
    match availableFormats.find? (fun f =>
        decide (f.format = VkFormat.b8g8r8a8Unorm ∧
                f.colorSpace = VkColorSpaceKHR.srgbNonlinearKHR)) with
    | some f => some f
    | none => availableFormats.head?

/-- The loop body of `chooseSwapPresentMode` (ISystem.h lines 89-102):
`bestMode` starts as FIFO, an encountered mailbox mode returns immediately,
an encountered immediate mode replaces `bestMode` and the scan continues. -/
def chooseSwapPresentModeLoop :
    List VkPresentModeKHR → VkPresentModeKHR → VkPresentModeKHR
  | [], bestMode => bestMode
  | m :: rest, bestMode =>
    if m = VkPresentModeKHR.mailboxKHR then m
    else if m = VkPresentModeKHR.immediateKHR then chooseSwapPresentModeLoop rest m
    else chooseSwapPresentModeLoop rest bestMode

/-- `chooseSwapPresentMode` (ISystem.h lines 89-102). -/
def chooseSwapPresentMode (availablePresentModes : List VkPresentModeKHR) :
    VkPresentModeKHR :=
  chooseSwapPresentModeLoop availablePresentModes VkPresentModeKHR.fifoKHR

/-- `std::numeric_limits<uint32_t>::max()`. -/
def uint32Max : Nat := 2 ^ 32 - 1

/-- Narrowing a `std::size_t` value to `uint32_t`. -/
def toUInt32Nat (n : Nat) : Nat := n % 2 ^ 32

/-- `chooseSwapExtent` (ISystem.h lines 105-115).  The `width`/`height`
parameters are `std::size_t` in the source and are narrowed to `uint32_t`
when stored into the `VkExtent2D`. -/
def chooseSwapExtent (capabilities : VkSurfaceCapabilitiesKHR)
    (width height : Nat) : VkExtent2D :=
  if capabilities.currentExtent.width ≠ uint32Max then
    capabilities.currentExtent
  else
    { width := max capabilities.minImageExtent.width
        (min capabilities.maxImageExtent.width (toUInt32Nat width)),
      height := max capabilities.minImageExtent.height
        (min capabilities.maxImageExtent.height (toUInt32Nat height)) }

/-- The swapchain image-count computation in `RenderSystem::createSwapChain`
(ISystem.h lines 394-397).  `minImageCount` is a `uint32_t` field, so the
`std::uint32_t imageCount = capabilities.minImageCount + 1` initialisation
wraps modulo `2 ^ 32`. -/
def swapChainImageCount (capabilities : VkSurfaceCapabilitiesKHR) : Nat :=
  let imageCount := toUInt32Nat (capabilities.minImageCount + 1)
  if 0 < capabilities.maxImageCount ∧ capabilities.maxImageCount < imageCount then
    capabilities.maxImageCount
  else
    imageCount

/-! ### The frame loop `RenderSystem::update` (ISystem.h lines 154-220) -/

/-- The observable actions of one `RenderSystem::update` call, in program
order.  `abortProcess` models `std::abort()`; nothing follows it. -/
inductive FrameEvent where
  | updateUniformBuffer
  | recreateSwapChain
  | acquireImage
  | submitDraw
  | presentImage
  | abortProcess
  | queueWaitIdle
deriving DecidableEq

/-- The environment of one frame: the `Input` singleton's resize state and
the results the Vulkan driver returns for acquire, submit and present. -/
structure FrameInput where
  shouldResize : Bool
  width : Nat
  height : Nat
  acquireResult : VkResult
  submitResult : VkResult
  presentResult : VkResult
deriving DecidableEq

/-- `RenderSystem::update` (ISystem.h lines 154-220) as the list of events it
performs, in order:
1. `updateUniformBuffer(delta)`;
2. `recreateSwapChain()` if a resize with positive dimensions is flagged;
3. `vkAcquireNextImageKHR`; on `VK_ERROR_OUT_OF_DATE_KHR` recreate and
   return; on any result other than success/suboptimal abort;
4. `vkQueueSubmit`; abort on failure;
5. `vkQueuePresentKHR`; on out-of-date or suboptimal recreate, on any other
   failure abort;
6. `vkQueueWaitIdle`. -/
def RenderSystem.update (inp : FrameInput) : List FrameEvent :=
  [FrameEvent.updateUniformBuffer]
  ++ (if inp.shouldResize = true ∧ 0 < inp.width ∧ 0 < inp.height then
        [FrameEvent.recreateSwapChain]
      else [])
  ++ [FrameEvent.acquireImage]
  ++ (if inp.acquireResult = VkResult.errorOutOfDateKHR then
        [FrameEvent.recreateSwapChain]
      else if inp.acquireResult ≠ VkResult.success ∧
              inp.acquireResult ≠ VkResult.suboptimalKHR then
        [FrameEvent.abortProcess]
      else
        [FrameEvent.submitDraw]
        ++ (if inp.submitResult ≠ VkResult.success then
              [FrameEvent.abortProcess]
            else
              [FrameEvent.presentImage]
              ++ (if inp.presentResult = VkResult.errorOutOfDateKHR ∨
                     inp.presentResult = VkResult.suboptimalKHR then
                    [FrameEvent.recreateSwapChain, FrameEvent.queueWaitIdle]
                  else if inp.presentResult ≠ VkResult.success then
                    [FrameEvent.abortProcess]
                  else
                    [FrameEvent.queueWaitIdle])))

/-! ### Physical-device discovery and selection (ISystem.h lines 309-330,
1043-1077, 1094-1124; RenderSystem.h lines 36-44, 125-127) -/

/-- One queue family as the loop in `RenderSystem::findQueueFamilies` sees
it: its `VkQueueFamilyProperties` fields plus the answer
`vkGetPhysicalDeviceSurfaceSupportKHR` gives for this family's index. -/
structure VkQueueFamilyProperties where
  queueCount : Nat
  queueFlags : Nat
  presentSupport : Bool
deriving DecidableEq

/-- `RenderSystem::QueueFamilyIndices` (RenderSystem.h lines 36-44):
`int` fields initialised to `-1`. -/
structure QueueFamilyIndices where
  graphicsFamily : Int
  presentFamily : Int
deriving DecidableEq

/-- `QueueFamilyIndices::isComplete` (RenderSystem.h lines 40-42). -/
def QueueFamilyIndices.isComplete (q : QueueFamilyIndices) : Prop :=
  0 ≤ q.graphicsFamily ∧ 0 ≤ q.presentFamily

instance (q : QueueFamilyIndices) : Decidable q.isComplete :=
  inferInstanceAs (Decidable (0 ≤ q.graphicsFamily ∧ 0 ≤ q.presentFamily))

/-- The loop body of `RenderSystem::findQueueFamilies` (ISystem.h lines
1104-1114) applied to `indices` at family `qf` with index `i`: record the
index in `graphicsFamily` if the family has queues and the graphics bit
(`VK_QUEUE_GRAPHICS_BIT = 0x1`), record it in `presentFamily` if the family
has queues and surface-presentation support.  The source's two sequential
conditional field assignments are combined into one record; the first
assignment does not influence the second's condition. -/
def queueFamilyStep (qf : VkQueueFamilyProperties) (i : Nat)
    (indices : QueueFamilyIndices) : QueueFamilyIndices :=
  { graphicsFamily :=
      if 0 < qf.queueCount ∧ qf.queueFlags &&& 1 ≠ 0 then (i : Int)
      else indices.graphicsFamily,
    presentFamily :=
      if 0 < qf.queueCount ∧ qf.presentSupport = true then (i : Int)
      else indices.presentFamily }

/-- The loop of `RenderSystem::findQueueFamilies` (ISystem.h lines
1103-1121): fold `queueFamilyStep` over the families with a running index,
breaking once both family indices are recorded (`isComplete`). -/
def findQueueFamiliesLoop :
    List VkQueueFamilyProperties → Nat → QueueFamilyIndices → QueueFamilyIndices
  | [], _, indices => indices
  | qf :: rest, i, indices =>
    let indices2 := queueFamilyStep qf i indices
    if indices2.isComplete then indices2
    else findQueueFamiliesLoop rest (i + 1) indices2

/-- `RenderSystem::findQueueFamilies` (ISystem.h lines 1094-1124). -/
def findQueueFamilies (queueFamilies : List VkQueueFamilyProperties) :
    QueueFamilyIndices :=
  findQueueFamiliesLoop queueFamilies 0 { graphicsFamily := -1, presentFamily := -1 }

/-- `RenderSystem::m_deviceExtensions` (RenderSystem.h lines 125-127):
just `VK_KHR_SWAPCHAIN_EXTENSION_NAME`. -/
def deviceExtensions : List String := ["VK_KHR_swapchain"]

/-- `RenderSystem::checkDeviceExtensionSupport` (ISystem.h lines 1063-1077):
start from the required-extension set and erase every available extension;
support holds when the set ends up empty. -/
def checkDeviceExtensionSupport (availableExtensions : List String) : Bool :=
  (availableExtensions.foldl (fun required ext => required.erase ext)
    deviceExtensions).isEmpty

/-- A physical device as the suitability check observes it: its queue
families (with per-index surface support), the extensions it advertises, the
surface formats and present modes `querySwapChainSupport` reports for it,
and the `samplerAnisotropy` feature bit. -/
structure VkPhysicalDevice where
  queueFamilies : List VkQueueFamilyProperties
  availableExtensions : List String
  formats : List VkSurfaceFormatKHR
  presentModes : List VkPresentModeKHR
  samplerAnisotropy : Bool
deriving DecidableEq

/-- `RenderSystem::isDeviceSuitable` (ISystem.h lines 1043-1060). -/
def isDeviceSuitable (device : VkPhysicalDevice) : Bool :=
  let indices := findQueueFamilies device.queueFamilies
  let extensionsSupported := checkDeviceExtensionSupport device.availableExtensions
  let swapChainAdequate :=
    if extensionsSupported then
      !device.formats.isEmpty && !device.presentModes.isEmpty
    else false
  decide indices.isComplete && extensionsSupported && swapChainAdequate &&
    device.samplerAnisotropy

/-- The selection loop of `RenderSystem::pickPhysicalDevice` (ISystem.h
lines 320-329): scan the enumerated devices in order and keep the first
suitable one; `none` models the `LOG_CRITICAL` abort when none qualifies. -/
def pickPhysicalDevice : List VkPhysicalDevice → Option VkPhysicalDevice
  | [] => none
  | d :: rest => if isDeviceSuitable d then some d else pickPhysicalDevice rest

/-! ### Mesh loading (Mesh.cpp lines 16-55, Vertex.h lines 14-63)

The float scalars of positions and texture coordinates are modelled as `Rat`;
the deduplication logic only ever compares them with `operator==`
(`Vertex::operator==`, Vertex.h lines 17-19), so any scalar type with
decidable equality is faithful on the non-NaN inputs the claims quantify
over. -/

/-- `glm::vec3`. -/
structure Vec3 where
  x : Rat
  y : Rat
  z : Rat
deriving DecidableEq

/-- `glm::vec2`. -/
structure Vec2 where
  x : Rat
  y : Rat
deriving DecidableEq

/-- `Vertex` (Vertex.h lines 14-63); the derived decidable equality is
exactly `Vertex::operator==` (field-wise comparison). -/
structure Vertex where
  pos : Vec3
  color : Vec3
  texCoord : Vec2
deriving DecidableEq

/-- `tinyobj::index_t` as used by the loader (a vertex index and a texture
coordinate index into the attribute arrays). -/
structure ObjIndex where
  vertexIndex : Nat
  texcoordIndex : Nat
deriving DecidableEq

/-- `tinyobj::attrib_t`: the flat position and texcoord arrays. -/
structure ObjAttrib where
  vertices : List Rat
  texcoords : List Rat
deriving DecidableEq

/-- `tinyobj::shape_t`, reduced to `shape.mesh.indices`. -/
structure ObjShape where
  meshIndices : List ObjIndex
deriving DecidableEq

/-- The `Vertex` constructed for one face reference in `Mesh::loadModel`
(Mesh.cpp lines 32-43): position from `attrib.vertices[3*i+0..2]`, color
fixed to `(1,1,1)`, texcoord from `attrib.texcoords[2*j+0..1]` with the
vertical coordinate flipped as `1 - t`. -/
def mkVertex (attrib : ObjAttrib) (index : ObjIndex) : Vertex :=
  { pos := { x := attrib.vertices.getD (3 * index.vertexIndex + 0) 0,
             y := attrib.vertices.getD (3 * index.vertexIndex + 1) 0,
             z := attrib.vertices.getD (3 * index.vertexIndex + 2) 0 },
    color := { x := 1, y := 1, z := 1 },
    texCoord := { x := attrib.texcoords.getD (2 * index.texcoordIndex + 0) 0,
                  y := 1 - attrib.texcoords.getD (2 * index.texcoordIndex + 1) 0 } }

/-- The loader's accumulated state: the output vertex and index vectors and
the `std::unordered_map<Vertex, uint32_t> uniqueVertices` (modelled as an
association list; lookup compares keys with `Vertex::operator==`). -/
structure LoadState where
  vertices : List Vertex
  indices : List Nat
  uniqueVertices : List (Vertex × Nat)
deriving DecidableEq

/-- Lookup in the `uniqueVertices` map: `some i` when the key is present
(`count == 1`), `none` when absent (`count == 0`). -/
def lookupVertex : List (Vertex × Nat) → Vertex → Option Nat
  | [], _ => none
  | (v, i) :: rest, w => if v = w then some i else lookupVertex rest w

/-- One iteration of the inner loop of `Mesh::loadModel` (Mesh.cpp lines
31-51): build the vertex; if it is not yet in `uniqueVertices`, record it
under index `static_cast<uint32_t>(vertices.size())` and push it onto the
vertex vector; then push `uniqueVertices[vertex]` onto the index vector. -/
def processIndex (attrib : ObjAttrib) (st : LoadState) (index : ObjIndex) :
    LoadState :=
  let vertex := mkVertex attrib index
  match lookupVertex st.uniqueVertices vertex with
  | some i => { st with indices := st.indices ++ [i] }
  | none =>
    let newIndex := toUInt32Nat st.vertices.length
    { vertices := st.vertices ++ [vertex],
      indices := st.indices ++ [newIndex],
      uniqueVertices := (vertex, newIndex) :: st.uniqueVertices }

/-- `Mesh::loadModel` (Mesh.cpp lines 16-55), reduced to the pure
computation of the vertex and index vectors from the parsed OBJ data:
iterate over every shape and every face reference of each shape. -/
def loadModel (attrib : ObjAttrib) (shapes : List ObjShape) :
    List Vertex × List Nat :=
  let final := shapes.foldl
    (fun st shape => shape.meshIndices.foldl (processIndex attrib) st)
    { vertices := [], indices := [], uniqueVertices := [] }
  (final.vertices, final.indices)

/-- All face references of a parsed model, in traversal order. -/
def allFaceRefs (shapes : List ObjShape) : List ObjIndex :=
  (shapes.map ObjShape.meshIndices).flatten

/-! ### Claim C1 -/

/-- Claim C1: in every frame-loop iteration, an out-of-date acquire result
triggers swapchain recreation and skips the rest of the iteration (no
submit, no present), and any acquire result that is neither success nor
suboptimal nor out-of-date aborts the process (no submit, no present). -/
theorem acquire_out_of_date_skips_frame_and_unknown_results_fatal (inp : FrameInput) :
    (inp.acquireResult = VkResult.errorOutOfDateKHR →
      RenderSystem.update inp =
        [FrameEvent.updateUniformBuffer]
        ++ (if inp.shouldResize = true ∧ 0 < inp.width ∧ 0 < inp.height then
              [FrameEvent.recreateSwapChain] else [])
        ++ [FrameEvent.acquireImage, FrameEvent.recreateSwapChain] ∧
      FrameEvent.submitDraw ∉ RenderSystem.update inp ∧
      FrameEvent.presentImage ∉ RenderSystem.update inp) ∧
    (inp.acquireResult ≠ VkResult.success →
      inp.acquireResult ≠ VkResult.suboptimalKHR →
      inp.acquireResult ≠ VkResult.errorOutOfDateKHR →
      RenderSystem.update inp =
        [FrameEvent.updateUniformBuffer]
        ++ (if inp.shouldResize = true ∧ 0 < inp.width ∧ 0 < inp.height then
              [FrameEvent.recreateSwapChain] else [])
        ++ [FrameEvent.acquireImage, FrameEvent.abortProcess] ∧
      FrameEvent.submitDraw ∉ RenderSystem.update inp ∧
      FrameEvent.presentImage ∉ RenderSystem.update inp) := by
  constructor
  · intro h
    by_cases hr : inp.shouldResize = true ∧ 0 < inp.width ∧ 0 < inp.height <;>
      simp [RenderSystem.update, h, hr]
  · intro h1 h2 h3
    by_cases hr : inp.shouldResize = true ∧ 0 < inp.width ∧ 0 < inp.height <;>
      simp [RenderSystem.update, h1, h2, h3, hr]

/-- Witness for C1 at concrete frame inputs. -/
theorem acquire_out_of_date_skips_frame_and_unknown_results_fatal_witness :
    FrameEvent.submitDraw ∉ RenderSystem.update
      ⟨false, 0, 0, VkResult.errorOutOfDateKHR, VkResult.success, VkResult.success⟩ ∧
    FrameEvent.presentImage ∉ RenderSystem.update
      ⟨false, 0, 0, VkResult.errorCode 1, VkResult.success, VkResult.success⟩ :=
  ⟨((acquire_out_of_date_skips_frame_and_unknown_results_fatal _).1 rfl).2.1,
   ((acquire_out_of_date_skips_frame_and_unknown_results_fatal _).2
      (by decide) (by decide) (by decide)).2.2⟩

/-! ### Claim C2 -/

/-- Claim C2 (counterexample): with a successful acquire and submit and a
suboptimal present result, `RenderSystem::update` does invoke
`recreateSwapChain` (ISystem.h lines 211-213), so a suboptimal present
result is not tolerated without recreation as the claim states. -/
theorem present_suboptimal_recreates_counterexample :
    FrameEvent.recreateSwapChain ∈ RenderSystem.update
      ⟨false, 0, 0, VkResult.success, VkResult.success, VkResult.suboptimalKHR⟩ := by
  decide

/-- Claim C2 (amended): a suboptimal present result triggers swapchain
recreation exactly as an out-of-date one does; the iteration is not fatal
and still finishes with the idle wait. -/
theorem present_suboptimal_or_out_of_date_recreates (inp : FrameInput)
    (ha : inp.acquireResult = VkResult.success ∨
          inp.acquireResult = VkResult.suboptimalKHR)
    (hs : inp.submitResult = VkResult.success)
    (hp : inp.presentResult = VkResult.suboptimalKHR) :
    RenderSystem.update inp =
      [FrameEvent.updateUniformBuffer]
      ++ (if inp.shouldResize = true ∧ 0 < inp.width ∧ 0 < inp.height then
            [FrameEvent.recreateSwapChain] else [])
      ++ [FrameEvent.acquireImage, FrameEvent.submitDraw, FrameEvent.presentImage,
          FrameEvent.recreateSwapChain, FrameEvent.queueWaitIdle] ∧
    FrameEvent.recreateSwapChain ∈ RenderSystem.update inp ∧
    FrameEvent.abortProcess ∉ RenderSystem.update inp := by
  rcases ha with h | h <;>
    by_cases hr : inp.shouldResize = true ∧ 0 < inp.width ∧ 0 < inp.height <;>
      simp [RenderSystem.update, h, hs, hp, hr]

/-- Witness for the amended C2 at a concrete frame input. -/
theorem present_suboptimal_or_out_of_date_recreates_witness :
    FrameEvent.recreateSwapChain ∈ RenderSystem.update
      ⟨false, 640, 480, VkResult.success, VkResult.success, VkResult.suboptimalKHR⟩ ∧
    FrameEvent.abortProcess ∉ RenderSystem.update
      ⟨false, 640, 480, VkResult.success, VkResult.success, VkResult.suboptimalKHR⟩ :=
  ⟨(present_suboptimal_or_out_of_date_recreates _ (Or.inl rfl) rfl rfl).2.1,
   (present_suboptimal_or_out_of_date_recreates _ (Or.inl rfl) rfl rfl).2.2⟩

/-! ### Claim C3 -/

/-- Claim C3: when `currentExtent.width` is the `uint32_t` sentinel
(`UINT32_MAX`), `chooseSwapExtent` clamps the desired size component-wise
into `[minImageExtent, maxImageExtent]`; otherwise it returns
`currentExtent` exactly. -/
theorem choose_swap_extent_spec (caps : VkSurfaceCapabilitiesKHR) (w h : Nat)
    (hw : w < 2 ^ 32) (hh : h < 2 ^ 32) :
    (caps.currentExtent.width = uint32Max →
      chooseSwapExtent caps w h =
        { width := max caps.minImageExtent.width (min caps.maxImageExtent.width w),
          height := max caps.minImageExtent.height (min caps.maxImageExtent.height h) }) ∧
    (caps.currentExtent.width ≠ uint32Max →
      chooseSwapExtent caps w h = caps.currentExtent) := by
  constructor
  · intro hcur
    unfold chooseSwapExtent
    rw [if_neg (by simp [hcur])]
    simp only [toUInt32Nat, Nat.mod_eq_of_lt hw, Nat.mod_eq_of_lt hh]
  · intro hcur
    simp [chooseSwapExtent, hcur]

/-- Witness for C3 at concrete capability reports. -/
theorem choose_swap_extent_spec_witness :
    chooseSwapExtent ⟨2, 3, ⟨uint32Max, 100⟩, ⟨10, 10⟩, ⟨50, 50⟩⟩ 640 480 =
      { width := 50, height := 50 } ∧
    chooseSwapExtent ⟨2, 3, ⟨800, 600⟩, ⟨10, 10⟩, ⟨50, 50⟩⟩ 640 480 =
      { width := 800, height := 600 } := by
  constructor
  · rw [(choose_swap_extent_spec ⟨2, 3, ⟨uint32Max, 100⟩, ⟨10, 10⟩, ⟨50, 50⟩⟩ 640 480
      (by decide) (by decide)).1 rfl]
    decide
  · exact (choose_swap_extent_spec ⟨2, 3, ⟨800, 600⟩, ⟨10, 10⟩, ⟨50, 50⟩⟩ 640 480
      (by decide) (by decide)).2 (by decide)

/-! ### Claim C5 -/

/-- Behaviour of the `chooseSwapPresentMode` scan for any starting
`bestMode`: mailbox anywhere wins, else immediate anywhere wins, else the
starting mode is returned. -/
theorem chooseSwapPresentModeLoop_spec (l : List VkPresentModeKHR)
    (best : VkPresentModeKHR) :
    (VkPresentModeKHR.mailboxKHR ∈ l →
      chooseSwapPresentModeLoop l best = VkPresentModeKHR.mailboxKHR) ∧
    (VkPresentModeKHR.mailboxKHR ∉ l → VkPresentModeKHR.immediateKHR ∈ l →
      chooseSwapPresentModeLoop l best = VkPresentModeKHR.immediateKHR) ∧
    (VkPresentModeKHR.mailboxKHR ∉ l → VkPresentModeKHR.immediateKHR ∉ l →
      chooseSwapPresentModeLoop l best = best) := by
  induction l generalizing best with
  | nil => simp [chooseSwapPresentModeLoop]
  | cons m rest ih =>
    by_cases h1 : m = VkPresentModeKHR.mailboxKHR
    · subst h1
      simp [chooseSwapPresentModeLoop]
    · by_cases h2 : m = VkPresentModeKHR.immediateKHR
      · subst h2
        refine ⟨?_, ?_, ?_⟩
        · intro hm
          have hm1 : VkPresentModeKHR.mailboxKHR ∈ rest := by
            rcases List.mem_cons.mp hm with hx | hx
            · exact absurd hx (by decide)
            · exact hx
          simpa [chooseSwapPresentModeLoop] using (ih _).1 hm1
        · intro hnm _
          have hnm1 : VkPresentModeKHR.mailboxKHR ∉ rest :=
            fun hx => hnm (List.mem_cons_of_mem _ hx)
          by_cases hi : VkPresentModeKHR.immediateKHR ∈ rest
          · simpa [chooseSwapPresentModeLoop] using (ih _).2.1 hnm1 hi
          · simpa [chooseSwapPresentModeLoop] using (ih _).2.2 hnm1 hi
        · intro _ hni
          exact absurd (List.mem_cons_self _ _) hni
      · refine ⟨?_, ?_, ?_⟩
        · intro hm
          have hm1 : VkPresentModeKHR.mailboxKHR ∈ rest := by
            rcases List.mem_cons.mp hm with hx | hx
            · exact absurd hx.symm h1
            · exact hx
          simpa [chooseSwapPresentModeLoop, h1, h2] using (ih best).1 hm1
        · intro hnm hi
          have hnm1 : VkPresentModeKHR.mailboxKHR ∉ rest :=
            fun hx => hnm (List.mem_cons_of_mem _ hx)
          have hi1 : VkPresentModeKHR.immediateKHR ∈ rest := by
            rcases List.mem_cons.mp hi with hx | hx
            · exact absurd hx.symm h2
            · exact hx
          simpa [chooseSwapPresentModeLoop, h1, h2] using (ih best).2.1 hnm1 hi1
        · intro hnm hni
          have hnm1 : VkPresentModeKHR.mailboxKHR ∉ rest :=
            fun hx => hnm (List.mem_cons_of_mem _ hx)
          have hni1 : VkPresentModeKHR.immediateKHR ∉ rest :=
            fun hx => hni (List.mem_cons_of_mem _ hx)
          simpa [chooseSwapPresentModeLoop, h1, h2] using (ih best).2.2 hnm1 hni1

/-- Claim C5: `chooseSwapPresentMode` returns mailbox if it is anywhere in
the list, else immediate if that is anywhere in the list, else FIFO. -/
theorem choose_swap_present_mode_spec (modes : List VkPresentModeKHR) :
    (VkPresentModeKHR.mailboxKHR ∈ modes →
      chooseSwapPresentMode modes = VkPresentModeKHR.mailboxKHR) ∧
    (VkPresentModeKHR.mailboxKHR ∉ modes → VkPresentModeKHR.immediateKHR ∈ modes →
      chooseSwapPresentMode modes = VkPresentModeKHR.immediateKHR) ∧
    (VkPresentModeKHR.mailboxKHR ∉ modes → VkPresentModeKHR.immediateKHR ∉ modes →
      chooseSwapPresentMode modes = VkPresentModeKHR.fifoKHR) :=
  chooseSwapPresentModeLoop_spec modes VkPresentModeKHR.fifoKHR

/-- Witness for C5 at concrete present-mode lists. -/
theorem choose_swap_present_mode_spec_witness :
    chooseSwapPresentMode
      [VkPresentModeKHR.fifoKHR, VkPresentModeKHR.immediateKHR,
       VkPresentModeKHR.mailboxKHR] = VkPresentModeKHR.mailboxKHR ∧
    chooseSwapPresentMode [VkPresentModeKHR.fifoKHR, VkPresentModeKHR.immediateKHR] =
      VkPresentModeKHR.immediateKHR ∧
    chooseSwapPresentMode [VkPresentModeKHR.fifoKHR, VkPresentModeKHR.otherMode 7] =
      VkPresentModeKHR.fifoKHR :=
  ⟨(choose_swap_present_mode_spec _).1 (by decide),
   (choose_swap_present_mode_spec _).2.1 (by decide) (by decide),
   (choose_swap_present_mode_spec _).2.2 (by decide) (by decide)⟩

/-! ### Claim C6 -/

/-- Claim C6 (counterexample): at `minImageCount = 2, maxImageCount = 2`
(a Vulkan-valid report) the requested count is 2, below the claimed
`minImageCount + 1`; and at the degenerate report
`minImageCount = 5, maxImageCount = 1` the count is 1, below
`minImageCount`, so neither "always at least min+1" nor the unconditional
ordering holds as stated. -/
theorem swap_chain_image_count_counterexample :
    swapChainImageCount ⟨2, 2, ⟨0, 0⟩, ⟨0, 0⟩, ⟨0, 0⟩⟩ = 2 ∧
    ¬ (2 + 1 ≤ swapChainImageCount ⟨2, 2, ⟨0, 0⟩, ⟨0, 0⟩, ⟨0, 0⟩⟩) ∧
    swapChainImageCount ⟨5, 1, ⟨0, 0⟩, ⟨0, 0⟩, ⟨0, 0⟩⟩ = 1 ∧
    ¬ (5 ≤ swapChainImageCount ⟨5, 1, ⟨0, 0⟩, ⟨0, 0⟩, ⟨0, 0⟩⟩) := by
  decide

/-- Claim C6 (amended): for reports in which `minImageCount + 1` does not
overflow `uint32_t`, the requested count is `minImageCount + 1` clamped from
above by `maxImageCount` when `maxImageCount > 0` (unbounded when it is 0);
for reports with `maxImageCount = 0` or `minImageCount ≤ maxImageCount` it
satisfies `minImageCount ≤ count` and, when bounded, `count ≤
maxImageCount`; it equals `minImageCount + 1` whenever that does not exceed
the bound; and for `minImageCount = 2, maxImageCount = 3` it resolves
to 3. -/
theorem swap_chain_image_count_clamped_spec (caps : VkSurfaceCapabilitiesKHR)
    (hvalid : caps.maxImageCount = 0 ∨ caps.minImageCount ≤ caps.maxImageCount)
    (hwrap : caps.minImageCount + 1 < 2 ^ 32) :
    swapChainImageCount caps =
      (if 0 < caps.maxImageCount then
        min (caps.minImageCount + 1) caps.maxImageCount
       else caps.minImageCount + 1) ∧
    caps.minImageCount ≤ swapChainImageCount caps ∧
    (0 < caps.maxImageCount → swapChainImageCount caps ≤ caps.maxImageCount) ∧
    (caps.maxImageCount = 0 ∨ caps.minImageCount + 1 ≤ caps.maxImageCount →
      swapChainImageCount caps = caps.minImageCount + 1) ∧
    (caps.minImageCount = 2 → caps.maxImageCount = 3 →
      swapChainImageCount caps = 3) := by
  have htr : toUInt32Nat (caps.minImageCount + 1) = caps.minImageCount + 1 :=
    Nat.mod_eq_of_lt hwrap
  have hdef : swapChainImageCount caps =
      if 0 < caps.maxImageCount ∧
          caps.maxImageCount < toUInt32Nat (caps.minImageCount + 1) then
        caps.maxImageCount
      else toUInt32Nat (caps.minImageCount + 1) := rfl
  rw [htr] at hdef
  rw [hdef]
  refine ⟨?_, ?_, ?_, ?_, ?_⟩ <;>
    · rcases hvalid with h | h <;>
        by_cases hM : 0 < caps.maxImageCount <;>
          by_cases hlt : caps.maxImageCount < caps.minImageCount + 1 <;>
            simp [hM, hlt] <;> intros <;> omega

/-- Witness for the amended C6 at the report
`minImageCount = 2, maxImageCount = 3` named by the spec scenario. -/
theorem swap_chain_image_count_clamped_spec_witness :
    swapChainImageCount ⟨2, 3, ⟨0, 0⟩, ⟨0, 0⟩, ⟨0, 0⟩⟩ = 3 :=
  (swap_chain_image_count_clamped_spec ⟨2, 3, ⟨0, 0⟩, ⟨0, 0⟩, ⟨0, 0⟩⟩
    (Or.inr (by decide)) (by decide)).2.2.2.2 rfl rfl

/-! ### Claim C8 -/

/-- Claim C8 (counterexample): with a pending positive-size resize flagged,
the frame loop still runs `updateUniformBuffer` first (ISystem.h line 156)
— the events before the first `recreateSwapChain` are exactly
`[updateUniformBuffer]` — so recreation is not invoked before the uniform
buffer update as the claim states. -/
theorem uniform_update_precedes_resize_recreation_counterexample :
    (RenderSystem.update
        ⟨true, 1, 1, VkResult.success, VkResult.success, VkResult.success⟩).takeWhile
      (fun e => e != FrameEvent.recreateSwapChain) = [FrameEvent.updateUniformBuffer] ∧
    FrameEvent.recreateSwapChain ∈ RenderSystem.update
      ⟨true, 1, 1, VkResult.success, VkResult.success, VkResult.success⟩ := by
  decide

/-- Claim C8 (amended): when a resize with positive dimensions is flagged,
swapchain recreation is invoked before the image acquire — but after the
uniform-buffer update, which is the very first action of the iteration. -/
theorem resize_recreation_before_acquire (inp : FrameInput)
    (hrs : inp.shouldResize = true) (hw : 0 < inp.width) (hh : 0 < inp.height) :
    (RenderSystem.update inp).take 3 =
      [FrameEvent.updateUniformBuffer, FrameEvent.recreateSwapChain,
       FrameEvent.acquireImage] := by
  simp [RenderSystem.update, hrs, hw, hh]

/-- Witness for the amended C8 at a concrete frame input. -/
theorem resize_recreation_before_acquire_witness :
    (RenderSystem.update
        ⟨true, 5, 5, VkResult.success, VkResult.success, VkResult.success⟩).take 3 =
      [FrameEvent.updateUniformBuffer, FrameEvent.recreateSwapChain,
       FrameEvent.acquireImage] :=
  resize_recreation_before_acquire _ rfl (by decide) (by decide)

/-! ### Claim C4 -/

/-- The scan predicate of `chooseSwapSurfaceFormat` holds exactly at the
preferred BGRA/sRGB pair. -/
theorem surfaceFormatPred_iff (f : VkSurfaceFormatKHR) :
    decide (f.format = VkFormat.b8g8r8a8Unorm ∧
            f.colorSpace = VkColorSpaceKHR.srgbNonlinearKHR) = true ↔
    f = preferredSurfaceFormat := by
  cases f with
  | mk fm cs => simp [preferredSurfaceFormat, VkSurfaceFormatKHR.mk.injEq]

/-- Claim C4: `chooseSwapSurfaceFormat` returns the preferred BGRA/sRGB pair
when the list contains it, returns the preferred pair for a single-element
list reporting the undefined format, and returns the first listed format
otherwise. -/
theorem choose_swap_surface_format_spec (fmts : List VkSurfaceFormatKHR) :
    (preferredSurfaceFormat ∈ fmts →
      chooseSwapSurfaceFormat fmts = some preferredSurfaceFormat) ∧
    (∀ f, fmts = [f] → f.format = VkFormat.undefined →
      chooseSwapSurfaceFormat fmts = some preferredSurfaceFormat) ∧
    (preferredSurfaceFormat ∉ fmts →
      ¬ (fmts.length = 1 ∧
          fmts.head?.map VkSurfaceFormatKHR.format = some VkFormat.undefined) →
      chooseSwapSurfaceFormat fmts = fmts.head?) := by
  refine ⟨?_, ?_, ?_⟩
  · intro hmem
    unfold chooseSwapSurfaceFormat
    by_cases hc : fmts.length = 1 ∧
        fmts.head?.map VkSurfaceFormatKHR.format = some VkFormat.undefined
    · rw [if_pos hc]
    · rw [if_neg hc]
      cases hfind : fmts.find? (fun f =>
          decide (f.format = VkFormat.b8g8r8a8Unorm ∧
                  f.colorSpace = VkColorSpaceKHR.srgbNonlinearKHR)) with
      | none =>
        exact absurd ((surfaceFormatPred_iff preferredSurfaceFormat).mpr rfl)
          (by simpa using List.find?_eq_none.mp hfind preferredSurfaceFormat hmem)
      | some g =>
        have hpg := List.find?_some hfind
        exact congrArg some ((surfaceFormatPred_iff g).mp hpg)
  · intro f hf hund
    subst hf
    unfold chooseSwapSurfaceFormat
    rw [if_pos ⟨rfl, by simp [hund]⟩]
  · intro hnm hnc
    unfold chooseSwapSurfaceFormat
    rw [if_neg hnc]
    have hfind : fmts.find? (fun f =>
        decide (f.format = VkFormat.b8g8r8a8Unorm ∧
                f.colorSpace = VkColorSpaceKHR.srgbNonlinearKHR)) = none := by
      rw [List.find?_eq_none]
      intro x hx hpx
      exact hnm ((surfaceFormatPred_iff x).mp hpx ▸ hx)
    rw [hfind]

/-- Witness for C4 at concrete surface-format lists. -/
theorem choose_swap_surface_format_spec_witness :
    chooseSwapSurfaceFormat
      [⟨VkFormat.otherFormat 3, VkColorSpaceKHR.otherColorSpace 1⟩,
       preferredSurfaceFormat] = some preferredSurfaceFormat ∧
    chooseSwapSurfaceFormat
      [⟨VkFormat.undefined, VkColorSpaceKHR.otherColorSpace 0⟩] =
        some preferredSurfaceFormat ∧
    chooseSwapSurfaceFormat
      [⟨VkFormat.otherFormat 3, VkColorSpaceKHR.otherColorSpace 1⟩,
       ⟨VkFormat.b8g8r8a8Unorm, VkColorSpaceKHR.otherColorSpace 2⟩] =
        some ⟨VkFormat.otherFormat 3, VkColorSpaceKHR.otherColorSpace 1⟩ :=
  ⟨(choose_swap_surface_format_spec _).1 (by decide),
   (choose_swap_surface_format_spec _).2.1 _ rfl rfl,
   (choose_swap_surface_format_spec _).2.2 (by decide) (by decide)⟩

/-! ### Claim C7 -/

/-- Folding `List.erase` over the available extensions starting from the
empty required set stays empty. -/
theorem foldl_erase_nil (avail : List String) :
    avail.foldl (fun required ext => required.erase ext) ([] : List String) = [] := by
  induction avail with
  | nil => rfl
  | cons e rest ih => simpa using ih

/-- Folding `List.erase` over the available extensions starting from a
singleton required set empties it exactly when the element is available. -/
theorem foldl_erase_singleton (avail : List String) (s : String) :
    avail.foldl (fun required ext => required.erase ext) [s] =
      if s ∈ avail then [] else [s] := by
  induction avail with
  | nil => simp
  | cons e rest ih =>
    by_cases h : s = e
    · subst h
      simp [List.foldl_cons, List.erase_cons_head, foldl_erase_nil]
    · simp only [List.foldl_cons, List.erase_cons, if_neg h, List.erase_nil]
      by_cases hs : s ∈ rest <;> simp [hs, h, ih]

/-- `RenderSystem::checkDeviceExtensionSupport` succeeds exactly when every
required device extension is among the available ones. -/
theorem checkDeviceExtensionSupport_iff (avail : List String) :
    checkDeviceExtensionSupport avail = true ↔
      ∀ e ∈ deviceExtensions, e ∈ avail := by
  unfold checkDeviceExtensionSupport deviceExtensions
  rw [foldl_erase_singleton]
  by_cases h : "VK_KHR_swapchain" ∈ avail <;> simp [h]

/-- After the `findQueueFamilies` scan, a family index is recorded (is
non-negative) exactly when it was already recorded or some scanned family
qualifies, for graphics and presentation respectively. -/
theorem findQueueFamiliesLoop_nonneg_iff (l : List VkQueueFamilyProperties)
    (i : Nat) (ind : QueueFamilyIndices) :
    (0 ≤ (findQueueFamiliesLoop l i ind).graphicsFamily ↔
      0 ≤ ind.graphicsFamily ∨
        ∃ qf ∈ l, 0 < qf.queueCount ∧ qf.queueFlags &&& 1 ≠ 0) ∧
    (0 ≤ (findQueueFamiliesLoop l i ind).presentFamily ↔
      0 ≤ ind.presentFamily ∨
        ∃ qf ∈ l, 0 < qf.queueCount ∧ qf.presentSupport = true) := by
  induction l generalizing i ind with
  | nil => simp [findQueueFamiliesLoop]
  | cons qf rest ih =>
    have hstep : findQueueFamiliesLoop (qf :: rest) i ind =
        (if (queueFamilyStep qf i ind).isComplete then queueFamilyStep qf i ind
         else findQueueFamiliesLoop rest (i + 1) (queueFamilyStep qf i ind)) := rfl
    have key_g : 0 ≤ (queueFamilyStep qf i ind).graphicsFamily ↔
        (0 < qf.queueCount ∧ qf.queueFlags &&& 1 ≠ 0) ∨ 0 ≤ ind.graphicsFamily := by
      have hgfield : (queueFamilyStep qf i ind).graphicsFamily =
          if 0 < qf.queueCount ∧ qf.queueFlags &&& 1 ≠ 0 then (i : Int)
          else ind.graphicsFamily := rfl
      rw [hgfield]
      by_cases hc : 0 < qf.queueCount ∧ qf.queueFlags &&& 1 ≠ 0
      · rw [if_pos hc]
        exact ⟨fun _ => Or.inl hc, fun _ => Int.natCast_nonneg i⟩
      · rw [if_neg hc]
        exact ⟨fun hg => Or.inr hg, fun hg => hg.elim (fun hca => absurd hca hc) id⟩
    have key_p : 0 ≤ (queueFamilyStep qf i ind).presentFamily ↔
        (0 < qf.queueCount ∧ qf.presentSupport = true) ∨ 0 ≤ ind.presentFamily := by
      have hpfield : (queueFamilyStep qf i ind).presentFamily =
          if 0 < qf.queueCount ∧ qf.presentSupport = true then (i : Int)
          else ind.presentFamily := rfl
      rw [hpfield]
      by_cases hc : 0 < qf.queueCount ∧ qf.presentSupport = true
      · rw [if_pos hc]
        exact ⟨fun _ => Or.inl hc, fun _ => Int.natCast_nonneg i⟩
      · rw [if_neg hc]
        exact ⟨fun hp => Or.inr hp, fun hp => hp.elim (fun hca => absurd hca hc) id⟩
    by_cases hcomp : (queueFamilyStep qf i ind).isComplete
    · rw [hstep, if_pos hcomp]
      obtain ⟨hcg, hcp⟩ := hcomp
      refine ⟨⟨fun _ => ?_, fun _ => hcg⟩, ⟨fun _ => ?_, fun _ => hcp⟩⟩
      · rcases key_g.mp hcg with hg | hg
        · exact Or.inr ⟨qf, List.mem_cons_self _ _, hg⟩
        · exact Or.inl hg
      · rcases key_p.mp hcp with hp | hp
        · exact Or.inr ⟨qf, List.mem_cons_self _ _, hp⟩
        · exact Or.inl hp
    · rw [hstep, if_neg hcomp]
      obtain ⟨ihg, ihp⟩ := ih (i + 1) (queueFamilyStep qf i ind)
      constructor
      · rw [ihg, key_g]
        constructor
        · rintro ((hg | hg) | ⟨x, hx, hxp⟩)
          · exact Or.inr ⟨qf, List.mem_cons_self _ _, hg⟩
          · exact Or.inl hg
          · exact Or.inr ⟨x, List.mem_cons_of_mem _ hx, hxp⟩
        · rintro (hg | ⟨x, hx, hxp⟩)
          · exact Or.inl (Or.inr hg)
          · rcases List.mem_cons.mp hx with hx1 | hx1
            · exact Or.inl (Or.inl (hx1 ▸ hxp))
            · exact Or.inr ⟨x, hx1, hxp⟩
      · rw [ihp, key_p]
        constructor
        · rintro ((hp | hp) | ⟨x, hx, hxp⟩)
          · exact Or.inr ⟨qf, List.mem_cons_self _ _, hp⟩
          · exact Or.inl hp
          · exact Or.inr ⟨x, List.mem_cons_of_mem _ hx, hxp⟩
        · rintro (hp | ⟨x, hx, hxp⟩)
          · exact Or.inl (Or.inr hp)
          · rcases List.mem_cons.mp hx with hx1 | hx1
            · exact Or.inl (Or.inl (hx1 ▸ hxp))
            · exact Or.inr ⟨x, hx1, hxp⟩

/-- `findQueueFamilies` completes exactly when a graphics-capable family and
a presentation-capable family both exist. -/
theorem findQueueFamilies_isComplete_iff (qfs : List VkQueueFamilyProperties) :
    (findQueueFamilies qfs).isComplete ↔
      (∃ qf ∈ qfs, 0 < qf.queueCount ∧ qf.queueFlags &&& 1 ≠ 0) ∧
      (∃ qf ∈ qfs, 0 < qf.queueCount ∧ qf.presentSupport = true) := by
  obtain ⟨hg, hp⟩ := findQueueFamiliesLoop_nonneg_iff qfs 0
    { graphicsFamily := -1, presentFamily := -1 }
  unfold findQueueFamilies QueueFamilyIndices.isComplete
  rw [hg, hp]
  simp

/-- `!l.isEmpty` is truth-equivalent to nonemptiness. -/
theorem bang_isEmpty_iff {α : Type} (l : List α) : (!l.isEmpty) = true ↔ l ≠ [] := by
  cases l <;> simp

/-- `isDeviceSuitable` unfolded into the five suitability conditions. -/
theorem isDeviceSuitable_iff (device : VkPhysicalDevice) :
    isDeviceSuitable device = true ↔
      ((∃ qf ∈ device.queueFamilies, 0 < qf.queueCount ∧ qf.queueFlags &&& 1 ≠ 0) ∧
       (∃ qf ∈ device.queueFamilies, 0 < qf.queueCount ∧ qf.presentSupport = true) ∧
       (∀ e ∈ deviceExtensions, e ∈ device.availableExtensions) ∧
       device.formats ≠ [] ∧ device.presentModes ≠ [] ∧
       device.samplerAnisotropy = true) := by
  rw [show (∀ e ∈ deviceExtensions, e ∈ device.availableExtensions) =
      (checkDeviceExtensionSupport device.availableExtensions = true) from
    propext (checkDeviceExtensionSupport_iff device.availableExtensions).symm]
  by_cases hext : checkDeviceExtensionSupport device.availableExtensions = true
  · unfold isDeviceSuitable
    simp only [hext, if_true, Bool.and_eq_true, decide_eq_true_eq,
      findQueueFamilies_isComplete_iff, bang_isEmpty_iff]
    tauto
  · unfold isDeviceSuitable
    rw [Bool.not_eq_true] at hext
    simp [hext]

/-- `pickPhysicalDevice` is the first-match scan over the enumerated
devices. -/
theorem pickPhysicalDevice_eq_find (devices : List VkPhysicalDevice) :
    pickPhysicalDevice devices = devices.find? isDeviceSuitable := by
  induction devices with
  | nil => rfl
  | cons d rest ih =>
    by_cases hd : isDeviceSuitable d = true <;>
      simp [pickPhysicalDevice, List.find?_cons, hd, ih]

/-- Claim C7: a physical device is suitable iff it has a graphics-capable
queue family, a presentation-capable queue family, all required device
extensions (the swapchain extension), non-empty surface format and present
mode lists, and anisotropic sampling; selection scans devices in enumeration
order, picks the first suitable one with no scoring, and reports fatal
failure (`none`, modelling the `LOG_CRITICAL` abort) exactly when no device
is suitable. -/
theorem device_suitability_iff_and_first_qualifying_picked
    (devices : List VkPhysicalDevice) (device : VkPhysicalDevice) :
    (isDeviceSuitable device = true ↔
      ((∃ qf ∈ device.queueFamilies, 0 < qf.queueCount ∧ qf.queueFlags &&& 1 ≠ 0) ∧
       (∃ qf ∈ device.queueFamilies, 0 < qf.queueCount ∧ qf.presentSupport = true) ∧
       (∀ e ∈ deviceExtensions, e ∈ device.availableExtensions) ∧
       device.formats ≠ [] ∧ device.presentModes ≠ [] ∧
       device.samplerAnisotropy = true)) ∧
    pickPhysicalDevice devices = devices.find? isDeviceSuitable ∧
    (pickPhysicalDevice devices = none ↔
      ∀ d ∈ devices, isDeviceSuitable d = false) := by
  refine ⟨isDeviceSuitable_iff device, pickPhysicalDevice_eq_find devices, ?_⟩
  rw [pickPhysicalDevice_eq_find, List.find?_eq_none]
  simp

/-- Witness for C7 at a concrete suitable device. -/
theorem device_suitability_iff_and_first_qualifying_picked_witness :
    isDeviceSuitable
      ⟨[⟨1, 1, true⟩], ["VK_KHR_swapchain"], [preferredSurfaceFormat],
       [VkPresentModeKHR.fifoKHR], true⟩ = true ∧
    pickPhysicalDevice ([] : List VkPhysicalDevice) = none := by
  constructor
  · exact (device_suitability_iff_and_first_qualifying_picked []
      ⟨[⟨1, 1, true⟩], ["VK_KHR_swapchain"], [preferredSurfaceFormat],
       [VkPresentModeKHR.fifoKHR], true⟩).1.mpr (by decide)
  · exact (device_suitability_iff_and_first_qualifying_picked []
      ⟨[⟨1, 1, true⟩], ["VK_KHR_swapchain"], [preferredSurfaceFormat],
       [VkPresentModeKHR.fifoKHR], true⟩).2.2.mpr (by simp)

/-! ### Claims C9 and C10: deduplication machinery

`insertVertex`/`idxOfVertex` give a canonical first-occurrence description
of the loader's vertex vector; the fold lemma below shows the loader's
state (vertex vector, index vector, `uniqueVertices` map) computes it. -/

/-- Append a vertex to the output vector unless it is already present. -/
def insertVertex (l : List Vertex) (v : Vertex) : List Vertex :=
  if v ∈ l then l else l ++ [v]

/-- Index of the first occurrence of a vertex in the output vector. -/
def idxOfVertex : List Vertex → Vertex → Nat
  | [], _ => 0
  | w :: rest, v => if w = v then 0 else idxOfVertex rest v + 1

theorem idxOfVertex_lt_length {l : List Vertex} {v : Vertex} (h : v ∈ l) :
    idxOfVertex l v < l.length := by
  induction l with
  | nil => cases h
  | cons w rest ih =>
    by_cases hw : w = v
    · simp [idxOfVertex, hw]
    · have hv : v ∈ rest := by
        rcases List.mem_cons.mp h with h1 | h1
        · exact absurd h1.symm hw
        · exact h1
      simp only [idxOfVertex, if_neg hw, List.length_cons]
      exact Nat.succ_lt_succ (ih hv)

theorem idxOfVertex_append_left {l : List Vertex} {v : Vertex} (t : List Vertex)
    (h : v ∈ l) : idxOfVertex (l ++ t) v = idxOfVertex l v := by
  induction l with
  | nil => cases h
  | cons w rest ih =>
    by_cases hw : w = v
    · simp [idxOfVertex, hw]
    · have hv : v ∈ rest := by
        rcases List.mem_cons.mp h with h1 | h1
        · exact absurd h1.symm hw
        · exact h1
      simp only [List.cons_append, idxOfVertex, if_neg hw, List.append_eq, ih hv]

theorem idxOfVertex_append_self {l : List Vertex} {v : Vertex} (h : v ∉ l) :
    idxOfVertex (l ++ [v]) v = l.length := by
  induction l with
  | nil => simp [idxOfVertex]
  | cons w rest ih =>
    have hw : ¬ w = v := fun hx => h (hx ▸ List.mem_cons_self _ _)
    have hv : v ∉ rest := fun hx => h (List.mem_cons_of_mem _ hx)
    simp only [List.cons_append, idxOfVertex, if_neg hw, List.append_eq, ih hv,
      List.length_cons]

theorem foldl_insertVertex_append (vs : List Vertex) :
    ∀ l : List Vertex, ∃ t, vs.foldl insertVertex l = l ++ t := by
  induction vs with
  | nil => exact fun l => ⟨[], by simp⟩
  | cons v rest ih =>
    intro l
    by_cases hv : v ∈ l
    · obtain ⟨t, ht⟩ := ih l
      exact ⟨t, by simpa [List.foldl_cons, insertVertex, hv] using ht⟩
    · obtain ⟨t, ht⟩ := ih (l ++ [v])
      refine ⟨[v] ++ t, ?_⟩
      simp only [List.foldl_cons, insertVertex, if_neg hv, ht, List.append_assoc]

theorem mem_foldl_insertVertex {vs : List Vertex} {v : Vertex} :
    ∀ l : List Vertex, v ∈ vs.foldl insertVertex l ↔ v ∈ l ∨ v ∈ vs := by
  induction vs with
  | nil => simp
  | cons w rest ih =>
    intro l
    have hmem : v ∈ insertVertex l w ↔ v ∈ l ∨ v = w := by
      unfold insertVertex
      by_cases hw : w ∈ l
      · rw [if_pos hw]
        exact ⟨Or.inl, fun h => h.elim id (fun hv => hv ▸ hw)⟩
      · rw [if_neg hw]
        simp
    rw [List.foldl_cons, ih, hmem, List.mem_cons]
    tauto

theorem nodup_foldl_insertVertex (vs : List Vertex) :
    ∀ l : List Vertex, l.Nodup → (vs.foldl insertVertex l).Nodup := by
  induction vs with
  | nil => exact fun l h => h
  | cons v rest ih =>
    intro l hl
    rw [List.foldl_cons]
    refine ih _ ?_
    unfold insertVertex
    by_cases hv : v ∈ l
    · rwa [if_pos hv]
    · rw [if_neg hv]
      rw [List.nodup_append]
      refine ⟨hl, List.nodup_singleton v, ?_⟩
      intro a ha hav
      exact hv ((List.mem_singleton.mp hav) ▸ ha)

theorem length_foldl_insertVertex (vs : List Vertex) :
    (vs.foldl insertVertex []).length = vs.toFinset.card := by
  have hnd : (vs.foldl insertVertex []).Nodup :=
    nodup_foldl_insertVertex vs [] List.nodup_nil
  have hfin : (vs.foldl insertVertex []).toFinset = vs.toFinset := by
    ext v
    simp [List.mem_toFinset, mem_foldl_insertVertex]
  rw [← List.toFinset_card_of_nodup hnd, hfin]

/-- The loader-state invariant: the vertex vector has no duplicates and the
`uniqueVertices` map is exactly the first-occurrence index of each vertex in
the vertex vector. -/
def LoadInv (st : LoadState) : Prop :=
  st.vertices.Nodup ∧
  (∀ v : Vertex, lookupVertex st.uniqueVertices v = none ↔ v ∉ st.vertices) ∧
  (∀ v i, lookupVertex st.uniqueVertices v = some i →
    v ∈ st.vertices ∧ i = idxOfVertex st.vertices v)

theorem nodup_append_single {l : List Vertex} {v : Vertex} (hl : l.Nodup)
    (hv : v ∉ l) : (l ++ [v]).Nodup := by
  rw [List.nodup_append]
  refine ⟨hl, List.nodup_singleton v, ?_⟩
  intro a ha hav
  exact hv ((List.mem_singleton.mp hav) ▸ ha)

theorem processIndex_found (attrib : ObjAttrib) (st : LoadState) (index : ObjIndex)
    (i : Nat) (h : lookupVertex st.uniqueVertices (mkVertex attrib index) = some i) :
    processIndex attrib st index = { st with indices := st.indices ++ [i] } := by
  simp only [processIndex, h]

theorem processIndex_new (attrib : ObjAttrib) (st : LoadState) (index : ObjIndex)
    (h : lookupVertex st.uniqueVertices (mkVertex attrib index) = none) :
    processIndex attrib st index =
      { vertices := st.vertices ++ [mkVertex attrib index],
        indices := st.indices ++ [toUInt32Nat st.vertices.length],
        uniqueVertices :=
          (mkVertex attrib index, toUInt32Nat st.vertices.length) ::
            st.uniqueVertices } := by
  simp only [processIndex, h]

/-- The inner fold of `Mesh::loadModel` computes: the vertex vector is the
first-occurrence fold of the constructed vertices, every index pushed is the
first-occurrence position of that reference's vertex in the final vertex
vector, and the invariant is preserved — provided the vertex vector cannot
overflow the `uint32_t` cast. -/
theorem foldl_processIndex_spec (attrib : ObjAttrib) (refs : List ObjIndex) :
    ∀ st : LoadState, LoadInv st →
      st.vertices.length + refs.length ≤ 2 ^ 32 →
      ((refs.foldl (processIndex attrib) st).vertices =
        refs.foldl (fun l r => insertVertex l (mkVertex attrib r)) st.vertices ∧
       (refs.foldl (processIndex attrib) st).indices =
        st.indices ++ refs.map (fun r =>
          idxOfVertex (refs.foldl (processIndex attrib) st).vertices
            (mkVertex attrib r)) ∧
       LoadInv (refs.foldl (processIndex attrib) st)) := by
  induction refs with
  | nil =>
    intro st hinv hb
    exact ⟨rfl, by simp, hinv⟩
  | cons r rest ih =>
    intro st hinv hb
    obtain ⟨hnd, hnone, hsome⟩ := hinv
    cases hl : lookupVertex st.uniqueVertices (mkVertex attrib r) with
    | some i =>
      have hpr := processIndex_found attrib st r i hl
      have hmem : mkVertex attrib r ∈ st.vertices := (hsome _ i hl).1
      have hidx : i = idxOfVertex st.vertices (mkVertex attrib r) := (hsome _ i hl).2
      have hv2 : (processIndex attrib st r).vertices = st.vertices := by rw [hpr]
      have hi2 : (processIndex attrib st r).indices = st.indices ++ [i] := by rw [hpr]
      have hinv' : LoadInv (processIndex attrib st r) := by
        rw [hpr]; exact ⟨hnd, hnone, hsome⟩
      have hb' : (processIndex attrib st r).vertices.length + rest.length ≤ 2 ^ 32 := by
        rw [hv2]
        simp only [List.length_cons] at hb
        omega
      obtain ⟨e1, e2, e3⟩ := ih _ hinv' hb'
      have hins : insertVertex st.vertices (mkVertex attrib r) = st.vertices := by
        unfold insertVertex
        rw [if_pos hmem]
      have hgr : idxOfVertex
          (rest.foldl (processIndex attrib) (processIndex attrib st r)).vertices
          (mkVertex attrib r) = i := by
        rw [e1, hv2, ← List.foldl_map]
        obtain ⟨t, ht⟩ :=
          foldl_insertVertex_append (rest.map (mkVertex attrib)) st.vertices
        rw [ht, idxOfVertex_append_left t hmem, ← hidx]
      refine ⟨?_, ?_, ?_⟩
      · simp only [List.foldl_cons]
        rw [e1, hv2, hins]
      · simp only [List.foldl_cons, List.map_cons]
        rw [e2, hi2, hgr]
        simp [List.append_assoc]
      · simpa only [List.foldl_cons] using e3
    | none =>
      have hnmem : mkVertex attrib r ∉ st.vertices := (hnone _).mp hl
      have hlen : st.vertices.length < 2 ^ 32 := by
        simp only [List.length_cons] at hb
        omega
      have htrunc : toUInt32Nat st.vertices.length = st.vertices.length :=
        Nat.mod_eq_of_lt hlen
      have hpr := processIndex_new attrib st r hl
      have hv2 : (processIndex attrib st r).vertices =
          st.vertices ++ [mkVertex attrib r] := by rw [hpr]
      have hi2 : (processIndex attrib st r).indices =
          st.indices ++ [st.vertices.length] := by rw [hpr, htrunc]
      have hu2 : (processIndex attrib st r).uniqueVertices =
          (mkVertex attrib r, st.vertices.length) :: st.uniqueVertices := by
        rw [hpr, htrunc]
      have hinv' : LoadInv (processIndex attrib st r) := by
        refine ⟨?_, ?_, ?_⟩
        · rw [hv2]
          exact nodup_append_single hnd hnmem
        · intro w
          rw [hv2, hu2]
          unfold lookupVertex
          by_cases hw : mkVertex attrib r = w
          · subst hw
            simp
          · rw [if_neg hw, hnone w]
            simp only [List.mem_append, List.mem_singleton]
            constructor
            · intro hwn hor
              exact hor.elim hwn (fun hx => hw hx.symm)
            · intro hor hwv
              exact hor (Or.inl hwv)
        · intro w j
          rw [hv2, hu2]
          unfold lookupVertex
          by_cases hw : mkVertex attrib r = w
          · subst hw
            rw [if_pos rfl]
            intro hj
            have hj1 : j = st.vertices.length := by
              injection hj with hj1
              exact hj1.symm
            subst hj1
            exact ⟨by simp, (idxOfVertex_append_self hnmem).symm⟩
          · rw [if_neg hw]
            intro hj
            obtain ⟨hwmem, hwidx⟩ := hsome w j hj
            exact ⟨List.mem_append_left _ hwmem,
              hwidx.trans (idxOfVertex_append_left [mkVertex attrib r] hwmem).symm⟩
      have hb' : (processIndex attrib st r).vertices.length + rest.length ≤ 2 ^ 32 := by
        rw [hv2, List.length_append, List.length_singleton]
        simp only [List.length_cons] at hb
        omega
      obtain ⟨e1, e2, e3⟩ := ih _ hinv' hb'
      have hins : insertVertex st.vertices (mkVertex attrib r) =
          st.vertices ++ [mkVertex attrib r] := by
        unfold insertVertex
        rw [if_neg hnmem]
      have hmemv : mkVertex attrib r ∈ st.vertices ++ [mkVertex attrib r] := by simp
      have hgr : idxOfVertex
          (rest.foldl (processIndex attrib) (processIndex attrib st r)).vertices
          (mkVertex attrib r) = st.vertices.length := by
        rw [e1, hv2, ← List.foldl_map]
        obtain ⟨t, ht⟩ := foldl_insertVertex_append (rest.map (mkVertex attrib))
          (st.vertices ++ [mkVertex attrib r])
        rw [ht, idxOfVertex_append_left t hmemv, idxOfVertex_append_self hnmem]
      refine ⟨?_, ?_, ?_⟩
      · simp only [List.foldl_cons]
        rw [e1, hv2, hins]
      · simp only [List.foldl_cons, List.map_cons]
        rw [e2, hi2, hgr]
        simp [List.append_assoc]
      · simpa only [List.foldl_cons] using e3


theorem foldl_shapes_eq_flatten {σ : Type} (f : σ → ObjIndex → σ) :
    ∀ (shapes : List ObjShape) (st : σ),
      shapes.foldl (fun s shape => shape.meshIndices.foldl f s) st =
        (allFaceRefs shapes).foldl f st := by
  intro shapes
  induction shapes with
  | nil => intro st; rfl
  | cons sh rest ih =>
    intro st
    have hall : allFaceRefs (sh :: rest) = sh.meshIndices ++ allFaceRefs rest := by
      simp [allFaceRefs]
    rw [List.foldl_cons, ih, hall, List.foldl_append]

/-- `Mesh::loadModel` computes the first-occurrence deduplicated vertex
vector and, for each face reference in traversal order, the index of its
vertex in that vector. -/
theorem loadModel_spec (attrib : ObjAttrib) (shapes : List ObjShape)
    (hbound : (allFaceRefs shapes).length ≤ 2 ^ 32) :
    (loadModel attrib shapes).1 =
      (allFaceRefs shapes).foldl
        (fun l r => insertVertex l (mkVertex attrib r)) [] ∧
    (loadModel attrib shapes).2 =
      (allFaceRefs shapes).map (fun r =>
        idxOfVertex (loadModel attrib shapes).1 (mkVertex attrib r)) ∧
    (loadModel attrib shapes).1.Nodup := by
  have hinit : LoadInv { vertices := [], indices := [], uniqueVertices := [] } :=
    ⟨List.nodup_nil, fun v => by simp [lookupVertex],
     fun v i h => by simp [lookupVertex] at h⟩
  have hmain := foldl_processIndex_spec attrib (allFaceRefs shapes)
    { vertices := [], indices := [], uniqueVertices := [] } hinit
    (by simpa using hbound)
  have hlm1 : (loadModel attrib shapes).1 =
      ((allFaceRefs shapes).foldl (processIndex attrib)
        { vertices := [], indices := [], uniqueVertices := [] }).vertices := by
    simp only [loadModel]
    rw [foldl_shapes_eq_flatten]
  have hlm2 : (loadModel attrib shapes).2 =
      ((allFaceRefs shapes).foldl (processIndex attrib)
        { vertices := [], indices := [], uniqueVertices := [] }).indices := by
    simp only [loadModel]
    rw [foldl_shapes_eq_flatten]
  refine ⟨?_, ?_, ?_⟩
  · rw [hlm1]
    exact hmain.1
  · rw [hlm2, hmain.2.1]
    simp only [← hlm1]
    simp
  · rw [hlm1]
    exact hmain.2.2.1

/-- Claim C9: any two face references whose constructed vertices are
field-wise equal receive the same output index (the first-occurrence
position of that vertex), and the output vertex vector has exactly one
entry per distinct vertex value among the face references, regardless of
how many duplicate references occur. -/
theorem mesh_vertex_dedup_spec (attrib : ObjAttrib) (shapes : List ObjShape)
    (p1 p2 : Nat)
    (hbound : (allFaceRefs shapes).length ≤ 2 ^ 32)
    (h1 : p1 < (allFaceRefs shapes).length)
    (h2 : p2 < (allFaceRefs shapes).length)
    (heq : mkVertex attrib ((allFaceRefs shapes).get ⟨p1, h1⟩) =
           mkVertex attrib ((allFaceRefs shapes).get ⟨p2, h2⟩)) :
    (loadModel attrib shapes).2[p1]? = (loadModel attrib shapes).2[p2]? ∧
    (loadModel attrib shapes).2[p1]? =
      some (idxOfVertex (loadModel attrib shapes).1
        (mkVertex attrib ((allFaceRefs shapes).get ⟨p1, h1⟩))) ∧
    (loadModel attrib shapes).1.length =
      ((allFaceRefs shapes).map (mkVertex attrib)).toFinset.card := by
  obtain ⟨hv, hi, hnd⟩ := loadModel_spec attrib shapes hbound
  have hp : ∀ (p : Nat) (hp1 : p < (allFaceRefs shapes).length),
      (loadModel attrib shapes).2[p]? =
        some (idxOfVertex (loadModel attrib shapes).1
          (mkVertex attrib ((allFaceRefs shapes).get ⟨p, hp1⟩))) := by
    intro p hp1
    rw [hi, List.getElem?_map, List.getElem?_eq_getElem hp1]
    simp [List.get_eq_getElem]
  refine ⟨?_, ?_, ?_⟩
  · rw [hp p1 h1, hp p2 h2, heq]
  · exact hp p1 h1
  · rw [hv, ← List.foldl_map, length_foldl_insertVertex]

/-- Witness for C9: a two-shape model in which the first and third face
references construct the same vertex and are assigned the same index. -/
theorem mesh_vertex_dedup_spec_witness :
    (loadModel ⟨[0, 0, 0, 1, 0, 0, 0, 1, 0], [0, 0, 1, 1]⟩
        [⟨[⟨0, 0⟩, ⟨1, 1⟩, ⟨0, 0⟩]⟩, ⟨[⟨2, 0⟩]⟩]).2[0]? =
      (loadModel ⟨[0, 0, 0, 1, 0, 0, 0, 1, 0], [0, 0, 1, 1]⟩
        [⟨[⟨0, 0⟩, ⟨1, 1⟩, ⟨0, 0⟩]⟩, ⟨[⟨2, 0⟩]⟩]).2[2]? :=
  (mesh_vertex_dedup_spec ⟨[0, 0, 0, 1, 0, 0, 0, 1, 0], [0, 0, 1, 1]⟩
    [⟨[⟨0, 0⟩, ⟨1, 1⟩, ⟨0, 0⟩]⟩, ⟨[⟨2, 0⟩]⟩] 0 2
    (by decide) (by decide) (by decide) rfl).1

/-- Claim C10: the loaded mesh is well-formed — every output index points
inside the output vertex vector, and there is exactly one output index per
face reference across all shapes. -/
theorem mesh_indices_wellformed (attrib : ObjAttrib) (shapes : List ObjShape)
    (hbound : (allFaceRefs shapes).length ≤ 2 ^ 32) :
    (∀ i ∈ (loadModel attrib shapes).2, i < (loadModel attrib shapes).1.length) ∧
    (loadModel attrib shapes).2.length =
      (shapes.map (fun s => s.meshIndices.length)).sum := by
  obtain ⟨hv, hi, hnd⟩ := loadModel_spec attrib shapes hbound
  constructor
  · intro i hmem
    rw [hi] at hmem
    obtain ⟨r, hr, hri⟩ := List.mem_map.mp hmem
    have hmemv : mkVertex attrib r ∈ (loadModel attrib shapes).1 := by
      rw [hv, ← List.foldl_map, mem_foldl_insertVertex]
      exact Or.inr (List.mem_map_of_mem _ hr)
    rw [← hri]
    exact idxOfVertex_lt_length hmemv
  · rw [hi, List.length_map]
    unfold allFaceRefs
    rw [List.length_flatten, List.map_map]
    rfl

/-- Witness for C10 at the concrete two-shape model. -/
theorem mesh_indices_wellformed_witness :
    (∀ i ∈ (loadModel ⟨[0, 0, 0, 1, 0, 0, 0, 1, 0], [0, 0, 1, 1]⟩
        [⟨[⟨0, 0⟩, ⟨1, 1⟩, ⟨0, 0⟩]⟩, ⟨[⟨2, 0⟩]⟩]).2,
      i < (loadModel ⟨[0, 0, 0, 1, 0, 0, 0, 1, 0], [0, 0, 1, 1]⟩
        [⟨[⟨0, 0⟩, ⟨1, 1⟩, ⟨0, 0⟩]⟩, ⟨[⟨2, 0⟩]⟩]).1.length) ∧
    (loadModel ⟨[0, 0, 0, 1, 0, 0, 0, 1, 0], [0, 0, 1, 1]⟩
        [⟨[⟨0, 0⟩, ⟨1, 1⟩, ⟨0, 0⟩]⟩, ⟨[⟨2, 0⟩]⟩]).2.length =
      ([⟨[⟨0, 0⟩, ⟨1, 1⟩, ⟨0, 0⟩]⟩, (⟨[⟨2, 0⟩]⟩ : ObjShape)].map
        (fun s => s.meshIndices.length)).sum :=
  mesh_indices_wellformed ⟨[0, 0, 0, 1, 0, 0, 0, 1, 0], [0, 0, 1, 1]⟩
    [⟨[⟨0, 0⟩, ⟨1, 1⟩, ⟨0, 0⟩]⟩, ⟨[⟨2, 0⟩]⟩] (by decide)

end SolEngine
